import Mathlib

/-!
Verification of the AmazonListGenie extraction pipeline.

The development shallowly embeds the content script
(`src/extension/src/contentScript.js`) and the export utilities
(`src/unnamed/part_002`) of the repository.  JavaScript strings are Lean
`String`s (operated on through their `List Char` data), DOM elements are
modelled as an abstract content-node type exposing exactly the accessors
the code reads (tag name, attributes, the resolved `href`/`src`
properties, text content, and `querySelector` results keyed by the
selector strings appearing in the source), and the document is a record
of the `querySelectorAll`/`querySelector` results the code observes.
Browser built-ins used by the code (`String.prototype.includes`,
`trim`, `toUpperCase`, the `RegExp` patterns appearing in the source,
`new URL`, `JSON.parse` key listing) are given executable models next to
their first use.
-/

/-- JS truthiness of a nullable string (`null`/`undefined` ↦ `none`,
the empty string is falsy). -/
def optT : Option String → Bool
  | none => false
  | some s => !s.isEmpty

/-- JS `a || b` on nullable strings: `b` when `a` is falsy. -/
def jsOr (a b : Option String) : Option String :=
  if optT a then a else b

/-- JS `a || ''`: collapse a nullable string to a string. -/
def jsOrE : Option String → String
  | some s => s
  | none => ""

/-- Substring test on character lists (models `String.prototype.includes`). -/
def listHasSub (needle : List Char) : List Char → Bool
  | [] => needle.isEmpty
  | c :: rest => needle.isPrefixOf (c :: rest) || listHasSub needle rest

/-- `hay.includes(needle)` for Lean strings. -/
def strIncludes (hay needle : String) : Bool :=
  listHasSub needle.data hay.data

/-- Case-insensitive substring test (models `/pat/i.test(s)` for a plain
word pattern such as `/wishlist/i`). -/
def strIncludesCI (hay needle : String) : Bool :=
  listHasSub (needle.data.map Char.toLower) (hay.data.map Char.toLower)

/-- `s.startsWith(pre)` for JS strings. -/
def jsStartsWith (s pre : String) : Bool :=
  pre.data.isPrefixOf s.data

/-- JS `toUpperCase` restricted to the ASCII strings the pipeline
manipulates: uppercase every character with `Char.toUpper`. -/
def upperStr (s : String) : String :=
  ⟨s.data.map Char.toUpper⟩

/-- A content node of the host page.  The extraction code only ever reads
a node through the accessors below, so a node is exactly a record of what
those accessors return; `querySelector` results are keyed by the literal
selector strings occurring in the source (`none` models `null`). -/
inductive Elem : Type where
  | node
      (tagName : String)
      (attrs : List (String × String))
      (closestDataAsin : Option String)
      (hrefProp : Option String)
      (srcProp : Option String)
      (textContent : String)
      (queries : List (String × Elem)) : Elem

/-- `element.tagName`. -/
def Elem.tagName : Elem → String
  | .node t _ _ _ _ _ _ => t

/-- `element.getAttribute(name)` (`none` = `null`). -/
def Elem.getAttr : Elem → String → Option String
  | .node _ attrs _ _ _ _ _, name => attrs.lookup name

/-- `element.closest('[data-asin]')?.getAttribute('data-asin')`:
`none` when no ancestor carries the attribute, otherwise the ancestor's
attribute value. -/
def Elem.closestDataAsin : Elem → Option String
  | .node _ _ c _ _ _ _ => c

/-- The resolved `element.href` property (`none` = absent/undefined). -/
def Elem.hrefProp : Elem → Option String
  | .node _ _ _ h _ _ _ => h

/-- The `element.src` property (`none` = absent/undefined). -/
def Elem.srcProp : Elem → Option String
  | .node _ _ _ _ s _ _ => s

/-- `element.textContent`. -/
def Elem.textContent : Elem → String
  | .node _ _ _ _ _ t _ => t

/-- `element.querySelector(sel)`, keyed by the selector string. -/
def Elem.query : Elem → String → Option Elem
  | .node _ _ _ _ _ _ qs, sel => qs.lookup sel

/-- The document as observed by the content script: the location URL,
`document.body` text and markup, the `querySelectorAll` results for the
four locator strategies of `findWishlistItems`, the wishlist-structure
`querySelector` probe shared by `isWishlistPage`/`isPrivateWishlist`,
and the sign-in/error alert nodes scanned by `isPrivateWishlist`. -/
structure Doc where
  locationHref : String
  bodyText : String
  bodyHTML : String
  q1 : List Elem
  q2 : List Elem
  q3 : List Elem
  q4 : List Elem
  wishlistStructure : Bool
  signInPrompts : List Elem

/-- A scraped wishlist record (the object literal built by
`extractItemData`). -/
structure Item where
  name : String
  asin : String
  price : String
  url : String
  image : String
deriving DecidableEq

/-- Character class `[A-Z0-9]` under the `/i` flag: ASCII letters of
either case and digits. -/
def isAsinChar (c : Char) : Bool :=
  ('A' ≤ c && c ≤ 'Z') || ('a' ≤ c && c ≤ 'z') || ('0' ≤ c && c ≤ '9')

/-- Character class `[A-Z0-9]` without the `/i` flag: uppercase ASCII
letters and digits. -/
def isUpperAsinChar (c : Char) : Bool :=
  ('A' ≤ c && c ≤ 'Z') || ('0' ≤ c && c ≤ '9')

/-- Regex word character `\w` = `[A-Za-z0-9_]` (ASCII). -/
def isWordChar (c : Char) : Bool :=
  c.isAlphanum || c = '_'

/-- `/^[A-Z0-9]{10}$/i.test(s)`: exactly ten alphanumeric characters. -/
def asinShape (s : String) : Bool :=
  s.data.length = 10 && s.data.all isAsinChar

/-- Strip a case-insensitive literal pattern off the front of the input,
returning the remainder (regex literal matching under `/i`). -/
def stripCIPre : List Char → List Char → Option (List Char)
  | [], cs => some cs
  | _ :: _, [] => none
  | p :: ps, c :: cs => if p.toLower = c.toLower then stripCIPre ps cs else none

/-- Take a ten-character run whose characters satisfy `ok`, returning the
run and the rest (the `{10}` quantifier over a character class). -/
def take10 (ok : Char → Bool) (cs : List Char) : Option (List Char × List Char) :=
  if (cs.take 10).length = 10 && (cs.take 10).all ok then
    some (cs.take 10, cs.drop 10)
  else none

/-- The `(?:[/?#]|$)` boundary after a captured product code. -/
def dpBoundary : List Char → Bool
  | [] => true
  | c :: _ => c = '/' || c = '?' || c = '#'

/-- Literal `dp/` of the product-path pattern. -/
def patDp : List Char := ['d', 'p', '/']

/-- Literal `gp/product/` of the product-path pattern. -/
def patGp : List Char := ['g', 'p', '/', 'p', 'r', 'o', 'd', 'u', 'c', 't', '/']

/-- The captured group plus its right boundary:
`([A-Z0-9]{10})(?:[/?#]|$)`. -/
def checkTok (r2 : List Char) : Option (List Char) :=
  match take10 isAsinChar r2 with
  | some (tok, r3) => if dpBoundary r3 then some tok else none
  | none => none

/-- Attempt `/\/(?:dp|gp\/product)\/([A-Z0-9]{10})(?:[/?#]|$)/i` at the
current position, returning the captured group.  (The two alternatives
of the alternation are mutually exclusive — they differ at their first
character — so they can be tried in sequence.) -/
def dpTryAt (cs : List Char) : Option (List Char) :=
  match cs with
  | '/' :: rest =>
    match stripCIPre patDp rest with
    | some r2 => checkTok r2
    | none =>
      match stripCIPre patGp rest with
      | some r2 => checkTok r2
      | none => none
  | _ => none

/-- Leftmost match of the product-path ASIN pattern (the `href.match`
call shared by `extractASINFromElement` and `extractASIN`). -/
def findDpAsin : List Char → Option (List Char)
  | [] => none
  | c :: rest =>
    match dpTryAt (c :: rest) with
    | some t => some t
    | none => findDpAsin rest

/-- Literal `asin=` of the query-parameter pattern. -/
def patAsinEq : List Char := ['a', 's', 'i', 'n', '=']

/-- Attempt `/[?&]asin=([A-Z0-9]{10})(?:&|$)/i` at the current position. -/
def asinParamTryAt (cs : List Char) : Option (List Char) :=
  match cs with
  | c :: rest =>
    if c = '?' || c = '&' then
      match stripCIPre patAsinEq rest with
      | some r2 =>
        match take10 isAsinChar r2 with
        | some (tok, r3) =>
          if r3.head? = none || r3.head? = some '&' then some tok else none
        | none => none
      | none => none
    else none
  | [] => none

/-- Leftmost match of the `asin=` query-parameter pattern. -/
def findAsinParam : List Char → Option (List Char)
  | [] => none
  | c :: rest =>
    match asinParamTryAt (c :: rest) with
    | some t => some t
    | none => findAsinParam rest

/-- `\b` before a word character: start of input or a non-word character
on the left. -/
def bBoundary : Option Char → Bool
  | none => true
  | some p => !isWordChar p

/-- Attempt `/\b([A-Z0-9]{10})\b/` (case-sensitive) at the current
position, given the previous character. -/
def bareTryAt (prev : Option Char) (cs : List Char) : Option (List Char) :=
  if bBoundary prev then
    match take10 isUpperAsinChar cs with
    | some (tok, r) =>
      if (match r.head? with
          | none => true
          | some c => !isWordChar c) then some tok else none
    | none => none
  else none

/-- Leftmost match of the bare ten-character token pattern. -/
def findBare : Option Char → List Char → Option (List Char)
  | _, [] => none
  | prev, c :: rest =>
    match bareTryAt prev (c :: rest) with
    | some t => some t
    | none => findBare (some c) rest

/-- `/^[B0-9A]/.test(s)` on the captured bare token. -/
def bareLeadOK (t : List Char) : Bool :=
  match t.head? with
  | some c => c = 'B' || ('0' ≤ c && c ≤ '9') || c = 'A'
  | none => false

/-- Origin and path of a parsed URL. -/
structure URLParts where
  origin : String
  pathname : String
deriving DecidableEq

/-- Characters allowed in a URL scheme. -/
def schemeChar (c : Char) : Bool :=
  c.isAlpha || c.isDigit || c = '+' || c = '-' || c = '.'

/-- A character ending the host component. -/
def hostEnd (c : Char) : Bool :=
  c = '/' || c = '?' || c = '#' || c = '\\'

/-- Negation of `hostEnd`, the host `takeWhile` predicate. -/
def notHostEnd (c : Char) : Bool :=
  !hostEnd c

/-- A character allowed to stay in the serialized path: everything up
to the query/fragment delimiters. -/
def pathChar (c : Char) : Bool :=
  c ≠ '?' && c ≠ '#'

/-- The scheme component: leading scheme characters. -/
def urlScheme (s : String) : List Char :=
  s.data.takeWhile schemeChar

/-- What follows the scheme component. -/
def urlAfterScheme (s : String) : List Char :=
  s.data.dropWhile schemeChar

/-- The host component of the part after `://`. -/
def urlHost (r2 : List Char) : List Char :=
  r2.takeWhile notHostEnd

/-- What follows the host component. -/
def urlAfterHost (r2 : List Char) : List Char :=
  r2.dropWhile notHostEnd

/-- The path component: everything after the host up to `?` or `#`. -/
def urlPath (r2 : List Char) : List Char :=
  (urlAfterHost r2).takeWhile pathChar

/-- Model of the browser's `new URL(s)` for absolute hierarchical URLs:
scheme, `://`, a non-empty host (spaces are forbidden host code points
and make parsing throw), then a path terminated by `?` or `#`; an empty
path serializes as `/`.  Query and fragment are not retained since the
code only reads `origin` and `pathname`.  Non-hierarchical schemes
(no `://`) are modelled as parse failures. -/
def parseURL (s : String) : Option URLParts :=
  if (urlScheme s).head?.elim false Char.isAlpha then
    match urlAfterScheme s with
    | ':' :: '/' :: '/' :: r2 =>
      if (urlHost r2).isEmpty || (urlHost r2).contains ' ' then none
      else
        some ⟨⟨urlScheme s ++ ':' :: '/' :: '/' :: urlHost r2⟩,
              ⟨if (urlPath r2).isEmpty then ['/'] else urlPath r2⟩⟩
    | _ => none
  else none

def strSlash : String := "/"

/-- Canonical origin used for root-relative links. -/
def amazonOrigin : String := "https://www.amazon.com"

/-- The `href.startsWith('/')` rewrite of `extractItemUrl`. -/
def rootResolve (href : String) : String :=
  if jsStartsWith href strSlash then amazonOrigin ++ href else href

/-- The URL clean-up of `extractItemUrl`: resolve a root-relative href
against the site origin, then keep `origin + pathname` of the parsed
URL; if `new URL` throws, the (resolved) href is returned unchanged. -/
def cleanHref (href : String) : String :=
  match parseURL (rootResolve href) with
  | some u => u.origin ++ u.pathname
  | none => rootResolve href

/-- Digit or comma, the `[\d,]` class of the price patterns. -/
def isDigitComma (c : Char) : Bool :=
  c.isDigit || c = ','

/-- Attempt `/[\$]?([\d,]+\.?\d*)/` at the current position: an optional
dollar sign, then one or more digits/commas, an optional dot and any
digits; returns the captured group. -/
def priceTryAt (cs : List Char) : Option (List Char) :=
  let cs2 := if cs.head? = some '$' then cs.tail else cs
  let run := cs2.takeWhile isDigitComma
  if run.isEmpty then none
  else
    let rest := cs2.dropWhile isDigitComma
    match rest with
    | '.' :: r2 => some (run ++ '.' :: r2.takeWhile Char.isDigit)
    | _ => some run

/-- Leftmost match of the loose price pattern used on a price element's
text. -/
def findPrice : List Char → Option (List Char)
  | [] => none
  | c :: rest =>
    match priceTryAt (c :: rest) with
    | some t => some t
    | none => findPrice rest

/-- Check for exactly two digits at the head of the input, returning
them and nothing else (the trailing `\d{2}` of the strict pattern). -/
def twoDigits : List Char → Option (List Char)
  | d1 :: d2 :: _ => if d1.isDigit && d2.isDigit then some [d1, d2] else none
  | _ => none

/-- One backtracking step of `/[\$]?([\d,]+\.?\d{2})/`: try the prefix
of the digit/comma run of length `k`, with `\.?` greedy. -/
def centsAt (run rest : List Char) (k : Nat) : Option (List Char) :=
  let pre := run.take k
  let post := run.drop k ++ rest
  match post with
  | '.' :: r2 => (twoDigits r2).map (fun ds => pre ++ '.' :: ds)
  | _ => (twoDigits post).map (fun ds => pre ++ ds)

/-- Backtrack the run length from `k` down to `1`. -/
def centsBacktrack (run rest : List Char) : Nat → Option (List Char)
  | 0 => none
  | k + 1 =>
    match centsAt run rest (k + 1) with
    | some t => some t
    | none => centsBacktrack run rest k

/-- Attempt `/[\$]?([\d,]+\.?\d{2})/` at the current position. -/
def centsTryAt (cs : List Char) : Option (List Char) :=
  let cs2 := if cs.head? = some '$' then cs.tail else cs
  let run := cs2.takeWhile isDigitComma
  if run.isEmpty then none
  else centsBacktrack run (cs2.dropWhile isDigitComma) run.length

/-- Leftmost match of the strict price pattern used on the element's
whole text as a fallback. -/
def findCents : List Char → Option (List Char)
  | [] => none
  | c :: rest =>
    match centsTryAt (c :: rest) with
    | some t => some t
    | none => findCents rest

/-- JSON insignificant whitespace skipping. -/
def jsonSkipWs (cs : List Char) : List Char :=
  cs.dropWhile (fun c => c = ' ' || c = '\t' || c = '\n' || c = '\r')

/-- Scan a JSON string body (after the opening quote) up to its closing
quote; escaped characters are kept literally (sufficient for the URL
keys the code extracts).  Returns the content and the remainder. -/
def jsonString : Nat → List Char → List Char → Option (List Char × List Char)
  | 0, _, _ => none
  | _ + 1, [], _ => none
  | _ + 1, '"' :: r, acc => some (acc.reverse, r)
  | fuel + 1, '\\' :: c :: r, acc => jsonString fuel r (c :: acc)
  | _ + 1, ['\\'], _ => none
  | fuel + 1, c :: r, acc => jsonString fuel r (c :: acc)

/-- Skip one JSON value: consume input, tracking bracket depth and
skipping strings, until a `,` or `}` at depth zero (left unconsumed). -/
def jsonSkipValue : Nat → Nat → List Char → Option (List Char)
  | 0, _, _ => none
  | _ + 1, _, [] => none
  | fuel + 1, depth, c :: r =>
    if depth = 0 && (c = ',' || c = '}') then some (c :: r)
    else if c = '"' then
      match jsonString fuel r [] with
      | some (_, rest) => jsonSkipValue fuel depth rest
      | none => none
    else if c = '{' || c = '[' then jsonSkipValue fuel (depth + 1) r
    else if c = '}' || c = ']' then
      match depth with
      | 0 => none
      | d + 1 => jsonSkipValue fuel d r
    else jsonSkipValue fuel depth r

/-- Collect the member keys of a JSON object body, in textual order
(JavaScript preserves insertion order of non-index string keys, so this
is the `Object.keys` order the code relies on). -/
def jsonKeysLoop : Nat → List Char → List String → Option (List String)
  | 0, _, _ => none
  | fuel + 1, cs, acc =>
    match cs with
    | '"' :: r =>
      match jsonString fuel r [] with
      | some (key, r2) =>
        match jsonSkipWs r2 with
        | ':' :: r3 =>
          match jsonSkipValue fuel 0 (jsonSkipWs r3) with
          | some (',' :: r4) => jsonKeysLoop fuel (jsonSkipWs r4) (acc ++ [⟨key⟩])
          | some ('}' :: r4) =>
            if jsonSkipWs r4 = [] then some (acc ++ [⟨key⟩]) else none
          | _ => none
        | _ => none
      | none => none
    | _ => none

/-- Model of `Object.keys(JSON.parse(s))` for a JSON object with string
keys; `none` models a `JSON.parse` exception. -/
def jsonTopKeys (s : String) : Option (List String) :=
  match jsonSkipWs s.data with
  | '{' :: r =>
    match jsonSkipWs r with
    | '}' :: r3 => if jsonSkipWs r3 = [] then some [] else none
    | r2 => jsonKeysLoop (s.data.length + 1) r2 []
  | _ => none

/-- `s.trim()`: drop whitespace from both ends. -/
def jsTrim (s : String) : String :=
  ⟨((s.data.dropWhile Char.isWhitespace).reverse.dropWhile Char.isWhitespace).reverse⟩

def attrDataAsin : String := "data-asin"

def attrDataItemId : String := "data-item-id"

def attrHref : String := "href"

def attrDataPrice : String := "data-price"

def attrDataSrc : String := "data-src"

def attrSrc : String := "src"

def attrDynImage : String := "data-a-dynamic-image"

def tagA : String := "A"

def strSlashSlash : String := "//"

def strHttpsColon : String := "https:"

def strPixel : String := "pixel"

def strPlaceholder : String := "placeholder"

def strDataImage : String := "data:image"

/-- Selector of `extractItemData`'s child ASIN probe. -/
def selAsinChild : String := "[data-asin], [href*=\"/dp/\"], [href*=\"/gp/product/\"]"

/-- Selector of the product link probe shared by `extractASINFromElement`
and `extractItemUrl`. -/
def selProductLink : String := "a[href*=\"/dp/\"], a[href*=\"/gp/product/\"]"

def selImg : String := "img"

/-- The shared `link = querySelector(...) || (tagName === 'A' ? element
: null)` computation. -/
def linkOf (el : Elem) : Option Elem :=
  match el.query selProductLink with
  | some l => some l
  | none => if el.tagName = tagA then some el else none

/-- The `data-asin || data-item-id || closest('[data-asin]')` chain. -/
def elemAttrAsin (el : Elem) : Option String :=
  jsOr (jsOr (el.getAttr attrDataAsin) (el.getAttr attrDataItemId)) el.closestDataAsin

/-- The `link.href || link.getAttribute('href')` read. -/
def linkHref (link : Elem) : Option String :=
  jsOr link.hrefProp (link.getAttr attrHref)

/-- `extractASINFromElement`: attribute chain validated by
`/^[A-Z0-9]{10}$/i` and uppercased, else the product-link href pattern,
else the empty string. -/
def extractASINFromElement (el : Elem) : String :=
  if optT (elemAttrAsin el) && asinShape (jsOrE (elemAttrAsin el)) then
    upperStr (jsOrE (elemAttrAsin el))
  else
    match linkOf el with
    | some link =>
      if optT (linkHref link) then
        match findDpAsin (jsOrE (linkHref link)).data with
        | some t => upperStr ⟨t⟩
        | none => ""
      else ""
    | none => ""

/-- The eight title selectors of `extractItemName`, in source order. -/
def titleSelectors : List String :=
  ["h2 a span", "h3 a span", "[id*=\"itemName\"]", ".a-text-normal",
   "a[id*=\"itemName\"]", ".a-link-normal", "h2", "h3"]

/-- First selector whose element has non-empty trimmed text. -/
def firstTitle (el : Elem) : List String → Option String
  | [] => none
  | sel :: rest =>
    match el.query sel with
    | some t =>
      if (jsTrim t.textContent).isEmpty then firstTitle el rest
      else some (jsTrim t.textContent)
    | none => firstTitle el rest

/-- `extractItemName`: selector list, then the long-text fallback
(`substring(0, 200)` when the whole text exceeds 50 characters). -/
def extractItemName (el : Elem) : String :=
  match firstTitle el titleSelectors with
  | some t => t
  | none =>
    let allText := jsTrim el.textContent
    if !allText.isEmpty && allText.data.length > 50 then
      jsTrim ⟨allText.data.take 200⟩
    else ""

/-- `replace(/,/g, '')` of `formatPrice`. -/
def stripCommas (s : String) : String :=
  ⟨s.data.filter (fun c => c ≠ ',')⟩

/-- `formatPrice`: empty stays empty; commas are removed; a `$` is
prepended unless the cleaned string already contains one. -/
def formatPrice (price : String) : String :=
  if price.isEmpty then ""
  else
    let cleaned := stripCommas price
    if cleaned.data.contains '$' then cleaned else "$" ++ cleaned

/-- The five price selectors of `extractItemPrice`, in source order. -/
def priceSelectors : List String :=
  [".a-price .a-offscreen", ".a-price-whole", "[class*=\"price\"]",
   ".a-color-price", "[data-price]"]

/-- The per-selector part of `extractItemPrice`: a truthy `data-price`
attribute wins, then a price pattern in the element text, then the raw
trimmed text; an element with empty text falls through to the next
selector. -/
def priceFromSelectors (el : Elem) : List String → Option String
  | [] => none
  | sel :: rest =>
    match el.query sel with
    | some priceEl =>
      if optT (priceEl.getAttr attrDataPrice) then
        some (formatPrice (jsOrE (priceEl.getAttr attrDataPrice)))
      else
        if (jsTrim priceEl.textContent).isEmpty then priceFromSelectors el rest
        else
          match findPrice (jsTrim priceEl.textContent).data with
          | some cap => some (formatPrice ⟨cap⟩)
          | none => some (jsTrim priceEl.textContent)
    | none => priceFromSelectors el rest

/-- `extractItemPrice`: selector list, then the strict price pattern
over the element's whole text. -/
def extractItemPrice (el : Elem) : String :=
  match priceFromSelectors el priceSelectors with
  | some p => p
  | none =>
    match findCents el.textContent.data with
    | some cap => formatPrice ⟨cap⟩
    | none => ""

/-- `extractItemUrl`: resolve the product link's href and clean it. -/
def extractItemUrl (el : Elem) : String :=
  match linkOf el with
  | none => ""
  | some link =>
    if optT (linkHref link) then cleanHref (jsOrE (linkHref link)) else ""

/-- The absolute-URL rewrite repeated in `extractItemImage`. -/
def absolutize (u : String) : String :=
  if jsStartsWith u strSlashSlash then strHttpsColon ++ u
  else if jsStartsWith u strSlash then amazonOrigin ++ u
  else u

/-- The six image selectors of `extractItemImage`, in source order. -/
def imageSelectors : List String :=
  ["img[data-a-dynamic-image]", "img[data-src]", "img.a-dynamic-image",
   ".a-dynamic-image img", "[data-image-latency] img", "img[src]"]

/-- The dynamic-image branch: parse the JSON attribute and take the last
key; a parse failure falls through. -/
def dynImagePart (img : Elem) : Option String :=
  match img.getAttr attrDynImage with
  | some attr =>
    if attr.isEmpty then none
    else
      match jsonTopKeys attr with
      | some keys =>
        match keys.getLast? with
        | some k => some (absolutize k)
        | none => none
      | none => none
  | none => none

/-- The lazy-load `data-src` branch. -/
def dataSrcPart (img : Elem) : Option String :=
  match img.getAttr attrDataSrc with
  | some v => if v.isEmpty then none else some (absolutize v)
  | none => none

/-- The `src` branch, skipping placeholder values. -/
def srcPart (img : Elem) : Option String :=
  let v := jsOrE (jsOr (img.getAttr attrSrc) img.srcProp)
  if v.isEmpty then none
  else if strIncludes v strPixel || strIncludes v strPlaceholder
      || strIncludes v strDataImage then none
  else some (absolutize v)

/-- One image element's three extraction methods, in source order. -/
def imgAttempt (img : Elem) : Option String :=
  match dynImagePart img with
  | some u => some u
  | none =>
    match dataSrcPart img with
    | some u => some u
    | none => srcPart img

/-- The selector loop of `extractItemImage`. -/
def imageFromSelectors (el : Elem) : List String → Option String
  | [] => none
  | sel :: rest =>
    match el.query sel with
    | some img =>
      match imgAttempt img with
      | some u => some u
      | none => imageFromSelectors el rest
    | none => imageFromSelectors el rest

/-- `extractItemImage`: selector loop, then the any-`img` fallback. -/
def extractItemImage (el : Elem) : String :=
  match imageFromSelectors el imageSelectors with
  | some u => u
  | none =>
    match el.query selImg with
    | some anyImg =>
      if !(jsOrE (jsOr anyImg.srcProp (anyImg.getAttr attrSrc))).isEmpty
          && !strIncludes (jsOrE (jsOr anyImg.srcProp (anyImg.getAttr attrSrc))) strPixel
          && !strIncludes (jsOrE (jsOr anyImg.srcProp (anyImg.getAttr attrSrc))) strPlaceholder
      then absolutize (jsOrE (jsOr anyImg.srcProp (anyImg.getAttr attrSrc)))
      else ""
    | none => ""

def unknownItem : String := "Unknown Item"

def priceNA : String := "N/A"

def dpUrlOrigin : String := "https://www.amazon.com/dp/"

/-- The child-probe fallback of `extractItemData`'s ASIN resolution. -/
def childAsin (el : Elem) : String :=
  match el.query selAsinChild with
  | some c => extractASINFromElement c
  | none => ""

/-- `extractItemData`'s ASIN resolution: the element itself, else the
child probe. -/
def resolveAsin (el : Elem) : String :=
  if (extractASINFromElement el).isEmpty then childAsin el
  else extractASINFromElement el

/-- `extractItemData`: the ASIN is mandatory (own element, else the
child probe); the remaining fields fall back to their sentinels. -/
def extractItemData (el : Elem) : Option Item :=
  if (resolveAsin el).isEmpty then none
  else
    some { name := if (extractItemName el).isEmpty then unknownItem else extractItemName el
           asin := resolveAsin el
           price := if (extractItemPrice el).isEmpty then priceNA else extractItemPrice el
           url := if (extractItemUrl el).isEmpty then dpUrlOrigin ++ resolveAsin el
                  else extractItemUrl el
           image := extractItemImage el }

/-- `findWishlistItems`: four `querySelectorAll` strategies, first
non-empty result wins, else the empty sequence. -/
def findWishlistItems (d : Doc) : List Elem :=
  if d.q1.length > 0 then d.q1
  else if d.q2.length > 0 then d.q2
  else if d.q3.length > 0 then d.q3
  else if d.q4.length > 0 then d.q4
  else []

def strWishlist : String := "wishlist"

/-- `isWishlistPage`: `/wishlist/i` on the location URL, or the
wishlist-structure probe. -/
def isWishlistPage (d : Doc) : Bool :=
  strIncludesCI d.locationHref strWishlist || d.wishlistStructure

/-- The six private/unavailable indicator phrases, verbatim from the
source. -/
def privateIndicators : List String :=
  ["This list is private",
   "This list is not available",
   "You don\x27t have permission",
   "This list doesn\x27t exist",
   "We\x27re sorry. The Web address you entered is not a functioning page",
   "Sorry, we couldn\x27t find that list"]

def phraseViewList : String := "view this list"

def phraseAccessList : String := "access this list"

def phrasePrivateList : String := "private list"

/-- The sign-in/alert prompt check of `isPrivateWishlist`. -/
def promptSignal (p : Elem) : Bool :=
  strIncludes p.textContent phraseViewList
    || strIncludes p.textContent phraseAccessList
    || strIncludes p.textContent phrasePrivateList

/-- `isPrivateWishlist`: accessible when the locator finds items;
otherwise private when an indicator phrase occurs in the body text or
markup and the wishlist-structure probe misses, or when a sign-in/error
prompt carries list-access copy; otherwise not private. -/
def isPrivateWishlist (d : Doc) : Bool :=
  if (findWishlistItems d).length > 0 then false
  else if privateIndicators.any (fun ind =>
      (strIncludes d.bodyText ind || strIncludes d.bodyHTML ind)
        && !d.wishlistStructure) then true
  else if d.signInPrompts.any promptSignal then true
  else false

/-- The `forEach` body of `scrapeWishlist`'s `extractItems`: collect the
records whose ASIN is new, threading the seen-identifier set. -/
def extractLoop : List Elem → List Item → List String → List Item × List String
  | [], acc, seen => (acc, seen)
  | el :: rest, acc, seen =>
    match extractItemData el with
    | some item =>
      if item.asin ≠ "" ∧ item.asin ∉ seen then
        extractLoop rest (acc ++ [item]) (item.asin :: seen)
      else extractLoop rest acc seen
    | none => extractLoop rest acc seen

/-- One pass of locator plus extractor over the current document state,
given the seen-identifier set; returns the new records and the updated
set. -/
def extractItems (d : Doc) (seen : List String) : List Item × List String :=
  extractLoop (findWishlistItems d) [] seen

/-- `maxScrollAttempts`. -/
def maxScrollAttempts : Nat := 10

/-- The scroll loop of `scrapeWishlist`.  `docs k` is the content tree
after `k` reveal (scroll + settle) cycles; `fuel` is the number of loop
iterations still allowed (`maxScrollAttempts - scrollAttempts`) and `i`
the number of reveal cycles performed so far.  Each iteration scrolls
once, extracts from the revealed tree, and stops when no growth
occurred.  Returns the accumulated records, the seen set, and the total
number of reveal cycles performed. -/
def scrapeLoop (docs : Nat → Doc) :
    Nat → Nat → List Item → List String → List Item × List String × Nat
  | 0, i, items, seen => (items, seen, i)
  | fuel + 1, i, items, seen =>
    let res := extractItems (docs (i + 1)) seen
    if (items ++ res.1).length = items.length then (items ++ res.1, res.2, i + 1)
    else scrapeLoop docs fuel (i + 1) (items ++ res.1) res.2

/-- The failure taxonomy of `scrapeWishlist` (the three `throw new
Error(...)` sites). -/
inductive ScrapeError where
  | notAWishlistPage
  | privateOrInaccessible
  | noItemsFound
deriving DecidableEq

/-- The state after the initial extraction and the full scroll loop:
accumulated records, seen set, and reveal-cycle count. -/
def scrapeFinal (docs : Nat → Doc) : List Item × List String × Nat :=
  scrapeLoop docs maxScrollAttempts 0 (extractItems (docs 0) []).1
    (extractItems (docs 0) []).2

/-- `scrapeWishlist` over the sequence of tree states, also reporting
the number of reveal cycles performed: classifier gates, initial
extraction, scroll loop, then the empty-result check. -/
def scrapeRun (docs : Nat → Doc) : Except ScrapeError (List Item) × Nat :=
  if !isWishlistPage (docs 0) then (.error .notAWishlistPage, 0)
  else if isPrivateWishlist (docs 0) then (.error .privateOrInaccessible, 0)
  else if (scrapeFinal docs).1.length = 0 then
    (.error .noItemsFound, (scrapeFinal docs).2.2)
  else (.ok (scrapeFinal docs).1, (scrapeFinal docs).2.2)

/-- The value/error returned by one `scrapeWishlist()` invocation. -/
def scrapeWishlist (docs : Nat → Doc) : Except ScrapeError (List Item) :=
  (scrapeRun docs).1

/-- The number of reveal cycles performed by one invocation. -/
def revealCount (docs : Nat → Doc) : Nat :=
  (scrapeRun docs).2

/-- The URL-pattern cascade of the utility `extractASIN` (patterns 1-3
of `src/unnamed/part_002`), applied to a URL string. -/
def extractASINStr (url : String) : String :=
  if url.isEmpty then ""
  else
    match findDpAsin url.data with
    | some t => upperStr ⟨t⟩
    | none =>
      match findAsinParam url.data with
      | some t => upperStr ⟨t⟩
      | none =>
        match findBare none url.data with
        | some t =>
          if t.length = 10 && bareLeadOK t then upperStr ⟨t⟩ else ""
        | none => ""

/-- The element branch of the utility `extractASIN`: when the element
has no usable href, a truthy `data-asin`/`data-item-id`/ancestor
attribute is returned verbatim; then (even with a href) a truthy
ancestor `data-asin` is returned verbatim; otherwise the URL patterns
run on the href. -/
def extractASINElem (el : Elem) : String :=
  if (jsOrE (linkHref el)).isEmpty ∧ optT (elemAttrAsin el) then
    jsOrE (elemAttrAsin el)
  else
    match el.closestDataAsin with
    | some v => if v ≠ "" then v else extractASINStr (jsOrE (linkHref el))
    | none => extractASINStr (jsOrE (linkHref el))

/-- The exported utility `extractASIN(input)`, over its two input
shapes (DOM element or URL string). -/
def extractASIN : Elem ⊕ String → String
  | .inl el => extractASINElem el
  | .inr s => extractASINStr s

/-- Double every quote character (`replace(/"/g, '""')`). -/
def dupQuotes : List Char → List Char
  | [] => []
  | c :: r => if c = '"' then '"' :: '"' :: dupQuotes r else c :: dupQuotes r

/-- `escapeCSVField`: wrap in quotes, doubling embedded quotes, exactly
when the field contains a comma, quote, or newline. -/
def escapeCSVField (field : String) : String :=
  if field.data.contains ',' || field.data.contains '"' || field.data.contains '\n'
  then ⟨'"' :: dupQuotes field.data ++ ['"']⟩
  else field

/-- The CSV header cells of `exportToCSV`. -/
def csvHeaders : List String := ["Item Name", "ASIN", "Price", "URL", "Image URL"]

/-- One CSV row of `exportToCSV` (the template literal joining the five
escaped fields with commas). -/
def itemRow (it : Item) : String :=
  escapeCSVField it.name ++ "," ++ escapeCSVField it.asin ++ ","
    ++ escapeCSVField it.price ++ "," ++ escapeCSVField it.url ++ ","
    ++ escapeCSVField it.image

/-- `headers.join(',')` of `exportToCSV`. -/
def csvHeaderString : String :=
  String.intercalate (",") csvHeaders

/-- The CSV text produced by `exportToCSV`; `none` models the rejected
empty export (the `alert` path that downloads nothing). -/
def exportToCSVContent (items : List Item) : Option String :=
  if items.length = 0 then none
  else some (String.intercalate ("\n") (csvHeaderString :: items.map itemRow))

/-- Collapse doubled quotes (`""` ↦ `"`). -/
def collapseQuotes : List Char → List Char
  | [] => []
  | [c] => [c]
  | c1 :: c2 :: r =>
    if c1 = '"' ∧ c2 = '"' then '"' :: collapseQuotes r
    else c1 :: collapseQuotes (c2 :: r)

/-- Standard CSV field decoding, the spec's round-trip partner of
`escapeCSVField`: strip a surrounding quote pair and collapse doubled
quotes; anything else is taken verbatim. -/
def csvFieldDecode (s : String) : String :=
  match s.data with
  | '"' :: rest =>
    if rest ≠ [] ∧ rest.getLast? = some '"' then ⟨collapseQuotes rest.dropLast⟩
    else s
  | _ => s

/-! ### Character-level facts about case normalization -/

theorem char_le_iff {a b : Char} : a ≤ b ↔ a.toNat ≤ b.toNat := by
  rw [Char.le_def, UInt32.le_def, BitVec.le_def]
  exact Iff.rfl

theorem charToNat_ofNat {n : Nat} (h : n.isValidChar) : (Char.ofNat n).toNat = n := by
  unfold Char.ofNat
  rw [dif_pos h]
  unfold Char.ofNatAux
  simp [Char.toNat, UInt32.toNat]

theorem toUpper_toNat_lower {c : Char} (h1 : 97 ≤ c.toNat) (h2 : c.toNat ≤ 122) :
    (Char.toUpper c).toNat = c.toNat - 32 := by
  unfold Char.toUpper
  rw [if_pos ⟨h1, h2⟩]
  exact charToNat_ofNat (Or.inl (by omega))

theorem toUpper_of_not_lower {c : Char} (h : ¬(97 ≤ c.toNat ∧ c.toNat ≤ 122)) :
    Char.toUpper c = c := by
  unfold Char.toUpper
  exact if_neg h

theorem isAsinChar_ranges {c : Char} (h : isAsinChar c = true) :
    (65 ≤ c.toNat ∧ c.toNat ≤ 90) ∨ (97 ≤ c.toNat ∧ c.toNat ≤ 122)
      ∨ (48 ≤ c.toNat ∧ c.toNat ≤ 57) := by
  unfold isAsinChar at h
  simp only [Bool.or_eq_true, Bool.and_eq_true, decide_eq_true_eq] at h
  rcases h with (⟨h1, h2⟩ | ⟨h1, h2⟩) | ⟨h1, h2⟩
  · exact Or.inl ⟨char_le_iff.mp h1, char_le_iff.mp h2⟩
  · exact Or.inr (Or.inl ⟨char_le_iff.mp h1, char_le_iff.mp h2⟩)
  · exact Or.inr (Or.inr ⟨char_le_iff.mp h1, char_le_iff.mp h2⟩)

theorem isUpperAsinChar_of_ranges {c : Char}
    (h : (65 ≤ c.toNat ∧ c.toNat ≤ 90) ∨ (48 ≤ c.toNat ∧ c.toNat ≤ 57)) :
    isUpperAsinChar c = true := by
  unfold isUpperAsinChar
  simp only [Bool.or_eq_true, Bool.and_eq_true, decide_eq_true_eq]
  rcases h with ⟨h1, h2⟩ | ⟨h1, h2⟩
  · exact Or.inl ⟨char_le_iff.mpr h1, char_le_iff.mpr h2⟩
  · exact Or.inr ⟨char_le_iff.mpr h1, char_le_iff.mpr h2⟩

theorem isUpperAsinChar_toUpper {c : Char} (h : isAsinChar c = true) :
    isUpperAsinChar (Char.toUpper c) = true := by
  rcases isAsinChar_ranges h with h' | h' | h'
  · rw [toUpper_of_not_lower (by omega)]
    exact isUpperAsinChar_of_ranges (Or.inl h')
  · have := toUpper_toNat_lower h'.1 h'.2
    exact isUpperAsinChar_of_ranges (Or.inl (by omega))
  · rw [toUpper_of_not_lower (by omega)]
    exact isUpperAsinChar_of_ranges (Or.inr h')

theorem toUpper_fix {c : Char} (h : isUpperAsinChar c = true) :
    Char.toUpper c = c := by
  unfold isUpperAsinChar at h
  simp only [Bool.or_eq_true, Bool.and_eq_true, decide_eq_true_eq] at h
  apply toUpper_of_not_lower
  rcases h with ⟨h1, h2⟩ | ⟨h1, h2⟩
  · have h1' : (65 : Nat) ≤ c.toNat := char_le_iff.mp h1
    have h2' : c.toNat ≤ 90 := char_le_iff.mp h2
    omega
  · have h1' : (48 : Nat) ≤ c.toNat := char_le_iff.mp h1
    have h2' : c.toNat ≤ 57 := char_le_iff.mp h2
    omega

theorem map_toUpper_valid {l : List Char} (h : l.all isAsinChar = true) :
    (l.map Char.toUpper).all isUpperAsinChar = true := by
  rw [List.all_eq_true] at h ⊢
  intro c hc
  rw [List.mem_map] at hc
  obtain ⟨a, ha, rfl⟩ := hc
  exact isUpperAsinChar_toUpper (h a ha)

theorem map_toUpper_fix {l : List Char} (h : l.all isUpperAsinChar = true) :
    l.map Char.toUpper = l := by
  rw [List.all_eq_true] at h
  induction l with
  | nil => rfl
  | cons c rest ih =>
    simp only [List.map_cons]
    rw [toUpper_fix (h c (by simp)), ih (fun x hx => h x (by simp [hx]))]

/-! ### String plumbing and scanner validity -/

theorem data_mk (l : List Char) : (String.mk l).data = l := rfl

theorem str_eq_of_data {s t : String} (h : s.data = t.data) : s = t := by
  cases s
  cases t
  cases h
  rfl

theorem take10_valid {ok : Char → Bool} {cs : List Char} {p : List Char × List Char}
    (h : take10 ok cs = some p) : p.1.length = 10 ∧ p.1.all ok = true := by
  unfold take10 at h
  split at h
  · rename_i hcond
    cases h
    simp only [Bool.and_eq_true, decide_eq_true_eq] at hcond
    exact ⟨hcond.1, hcond.2⟩
  · cases h

theorem checkTok_valid {r2 t : List Char} (h : checkTok r2 = some t) :
    t.length = 10 ∧ t.all isAsinChar = true := by
  unfold checkTok at h
  split at h
  · rename_i tok r3 htake
    split at h
    · cases h
      exact take10_valid htake
    · cases h
  · cases h

theorem dpTryAt_valid {cs t : List Char} (h : dpTryAt cs = some t) :
    t.length = 10 ∧ t.all isAsinChar = true := by
  unfold dpTryAt at h
  split at h
  · split at h
    · exact checkTok_valid h
    · split at h
      · exact checkTok_valid h
      · cases h
  · cases h

theorem findDpAsin_valid : ∀ {cs t : List Char}, findDpAsin cs = some t →
    t.length = 10 ∧ t.all isAsinChar = true := by
  intro cs
  induction cs with
  | nil => intro t h; cases h
  | cons c rest ih =>
    intro t h
    unfold findDpAsin at h
    split at h
    · rename_i htry
      cases h
      exact dpTryAt_valid htry
    · exact ih h

/-- A non-empty result of `extractASINFromElement` is a ten-character
uppercase alphanumeric code. -/
theorem asinFromElement_valid (el : Elem) :
    extractASINFromElement el = ""
      ∨ ((extractASINFromElement el).data.length = 10
          ∧ (extractASINFromElement el).data.all isUpperAsinChar = true) := by
  unfold extractASINFromElement
  split
  · rename_i hcond
    right
    simp only [Bool.and_eq_true] at hcond
    have hsh := hcond.2
    unfold asinShape at hsh
    simp only [Bool.and_eq_true, decide_eq_true_eq] at hsh
    unfold upperStr
    rw [data_mk]
    refine ⟨?_, map_toUpper_valid hsh.2⟩
    rw [List.length_map]
    exact hsh.1
  · split
    · split
      · split
        · rename_i t hfind
          right
          have hv := findDpAsin_valid hfind
          unfold upperStr
          rw [data_mk, data_mk]
          refine ⟨?_, map_toUpper_valid hv.2⟩
          rw [List.length_map]
          exact hv.1
        · exact Or.inl rfl
      · exact Or.inl rfl
    · exact Or.inl rfl

/-! ### Collector-loop invariants -/

theorem extractItemData_asin {el : Elem} {it : Item}
    (h : extractItemData el = some it) :
    it.asin = resolveAsin el ∧ ¬ (resolveAsin el).isEmpty = true := by
  unfold extractItemData at h
  split at h
  · cases h
  · rename_i hne
    cases h
    exact ⟨rfl, hne⟩

theorem extractItemData_asin_ne {el : Elem} {it : Item}
    (h : extractItemData el = some it) : it.asin ≠ "" := by
  obtain ⟨h1, h2⟩ := extractItemData_asin h
  rw [h1]
  intro hc
  rw [hc] at h2
  exact h2 rfl

theorem extractLoop_cons (el : Elem) (rest : List Elem) (acc : List Item) (seen : List String) :
    extractLoop (el :: rest) acc seen =
      match extractItemData el with
      | some item =>
        if item.asin ≠ "" ∧ item.asin ∉ seen then
          extractLoop rest (acc ++ [item]) (item.asin :: seen)
        else extractLoop rest acc seen
      | none => extractLoop rest acc seen := rfl

theorem extractLoop_seen_mono : ∀ (l : List Elem) (acc : List Item)
    (seen : List String) (a : String), a ∈ seen → a ∈ (extractLoop l acc seen).2 := by
  intro l
  induction l with
  | nil => intro acc seen a ha; exact ha
  | cons el rest ih =>
    intro acc seen a ha
    rcases hdata : extractItemData el with _ | item
    · simp only [extractLoop_cons, hdata]
      exact ih _ _ a ha
    · simp only [extractLoop_cons, hdata]
      by_cases hcond : item.asin ≠ "" ∧ item.asin ∉ seen
      · simp only [if_pos hcond]
        exact ih _ _ a (List.mem_cons_of_mem _ ha)
      · simp only [if_neg hcond]
        exact ih _ _ a ha

theorem extractLoop_inv : ∀ (l : List Elem) (acc : List Item) (seen : List String),
    (∀ x ∈ acc, x.asin ∈ seen) → (acc.map Item.asin).Nodup →
    ((extractLoop l acc seen).1.map Item.asin).Nodup
      ∧ ∀ x ∈ (extractLoop l acc seen).1, x.asin ∈ (extractLoop l acc seen).2 := by
  intro l
  induction l with
  | nil => intro acc seen hmem hnd; exact ⟨hnd, hmem⟩
  | cons el rest ih =>
    intro acc seen hmem hnd
    rcases hdata : extractItemData el with _ | item
    · simp only [extractLoop_cons, hdata]
      exact ih _ _ hmem hnd
    · simp only [extractLoop_cons, hdata]
      by_cases hcond : item.asin ≠ "" ∧ item.asin ∉ seen
      · simp only [if_pos hcond]
        apply ih
        · intro x hx
          rcases List.mem_append.mp hx with hx' | hx'
          · exact List.mem_cons_of_mem _ (hmem x hx')
          · rw [List.mem_singleton.mp hx']
            exact List.mem_cons_self _ _
        · rw [List.map_append, List.nodup_append]
          refine ⟨hnd, List.nodup_singleton _, ?_⟩
          intro a ha hb
          rw [List.mem_map] at ha
          obtain ⟨x, hx, rfl⟩ := ha
          simp only [List.map_cons, List.map_nil, List.mem_singleton] at hb
          exact hcond.2 (hb ▸ hmem x hx)
      · simp only [if_neg hcond]
        exact ih _ _ hmem hnd

theorem extractLoop_new : ∀ (l : List Elem) (acc : List Item) (seen : List String)
    (x : Item), x ∈ (extractLoop l acc seen).1 → x ∈ acc ∨ x.asin ∉ seen := by
  intro l
  induction l with
  | nil => intro acc seen x hx; exact Or.inl hx
  | cons el rest ih =>
    intro acc seen x hx
    rcases hdata : extractItemData el with _ | item
    · simp only [extractLoop_cons, hdata] at hx
      exact ih _ _ x hx
    · simp only [extractLoop_cons, hdata] at hx
      by_cases hcond : item.asin ≠ "" ∧ item.asin ∉ seen
      · simp only [if_pos hcond] at hx
        rcases ih _ _ x hx with hx' | hx'
        · rcases List.mem_append.mp hx' with h | h
          · exact Or.inl h
          · rw [List.mem_singleton.mp h]
            exact Or.inr hcond.2
        · exact Or.inr fun hc => hx' (List.mem_cons_of_mem _ hc)
      · simp only [if_neg hcond] at hx
        exact ih _ _ x hx
    
theorem extractLoop_sat : ∀ (l : List Elem) (acc : List Item) (seen : List String)
    (el : Elem), el ∈ l → ∀ it : Item, extractItemData el = some it →
    it.asin ∈ (extractLoop l acc seen).2 := by
  intro l
  induction l with
  | nil => intro acc seen el hel; cases hel
  | cons el0 rest ih =>
    intro acc seen el hel it hit
    rcases List.mem_cons.mp hel with rfl | hel'
    · simp only [extractLoop_cons, hit]
      by_cases hcond : it.asin ≠ "" ∧ it.asin ∉ seen
      · rw [if_pos hcond]
        exact extractLoop_seen_mono _ _ _ _ (List.mem_cons_self _ _)
      · rw [if_neg hcond]
        rw [Decidable.not_and_iff_or_not] at hcond
        rcases hcond with h | h
        · exact absurd (extractItemData_asin_ne hit) fun _ => h (extractItemData_asin_ne hit)
        · rw [Decidable.not_not] at h
          exact extractLoop_seen_mono _ _ _ _ h
    · rcases hdata : extractItemData el0 with _ | item
      · simp only [extractLoop_cons, hdata]
        exact ih _ _ el hel' it hit
      · simp only [extractLoop_cons, hdata]
        by_cases hcond : item.asin ≠ "" ∧ item.asin ∉ seen
        · rw [if_pos hcond]
          exact ih _ _ el hel' it hit
        · rw [if_neg hcond]
          exact ih _ _ el hel' it hit

theorem extractLoop_noop : ∀ (l : List Elem) (acc : List Item) (seen : List String),
    (∀ el ∈ l, ∀ it : Item, extractItemData el = some it → it.asin ∈ seen) →
    extractLoop l acc seen = (acc, seen) := by
  intro l
  induction l with
  | nil => intro acc seen _; rfl
  | cons el rest ih =>
    intro acc seen hsat
    rcases hdata : extractItemData el with _ | item
    · simp only [extractLoop_cons, hdata]
      exact ih _ _ fun e he => hsat e (List.mem_cons_of_mem _ he)
    · simp only [extractLoop_cons, hdata]
      rw [if_neg (fun hcond =>
        hcond.2 (hsat el (List.mem_cons_self _ _) item hdata))]
      exact ih _ _ fun e he => hsat e (List.mem_cons_of_mem _ he)

theorem scrapeLoop_succ (docs : Nat → Doc) (fuel i : Nat) (items : List Item)
    (seen : List String) :
    scrapeLoop docs (fuel + 1) i items seen =
      (if (items ++ (extractItems (docs (i + 1)) seen).1).length = items.length
       then (items ++ (extractItems (docs (i + 1)) seen).1,
             (extractItems (docs (i + 1)) seen).2, i + 1)
       else scrapeLoop docs fuel (i + 1)
              (items ++ (extractItems (docs (i + 1)) seen).1)
              (extractItems (docs (i + 1)) seen).2) := rfl

theorem scrapeLoop_cycles (docs : Nat → Doc) : ∀ (fuel i : Nat) (items : List Item)
    (seen : List String), (scrapeLoop docs fuel i items seen).2.2 ≤ i + fuel := by
  intro fuel
  induction fuel with
  | zero => intro i items seen; exact Nat.le_refl i
  | succ f ih =>
    intro i items seen
    rw [scrapeLoop_succ]
    by_cases hc : (items ++ (extractItems (docs (i + 1)) seen).1).length = items.length
    · rw [if_pos hc]
      show i + 1 ≤ i + (f + 1)
      omega
    · rw [if_neg hc]
      have := ih (i + 1) (items ++ (extractItems (docs (i + 1)) seen).1)
        (extractItems (docs (i + 1)) seen).2
      omega

theorem scrapeLoop_nodup (docs : Nat → Doc) : ∀ (fuel i : Nat) (items : List Item)
    (seen : List String), (∀ x ∈ items, x.asin ∈ seen) →
    (items.map Item.asin).Nodup →
    ((scrapeLoop docs fuel i items seen).1.map Item.asin).Nodup := by
  intro fuel
  induction fuel with
  | zero => intro i items seen _ hnd; exact hnd
  | succ f ih =>
    intro i items seen hmem hnd
    have hinv := extractLoop_inv (findWishlistItems (docs (i + 1))) [] seen
      (by intro x hx; cases hx) List.nodup_nil
    have hnew := extractLoop_new (findWishlistItems (docs (i + 1))) [] seen
    have hmono := extractLoop_seen_mono (findWishlistItems (docs (i + 1))) [] seen
    have hmem2 : ∀ x ∈ items ++ (extractItems (docs (i + 1)) seen).1,
        x.asin ∈ (extractItems (docs (i + 1)) seen).2 := by
      intro x hx
      rcases List.mem_append.mp hx with hx' | hx'
      · exact hmono _ (hmem x hx')
      · exact hinv.2 x hx'
    have hnd2 : ((items ++ (extractItems (docs (i + 1)) seen).1).map Item.asin).Nodup := by
      rw [List.map_append, List.nodup_append]
      refine ⟨hnd, hinv.1, ?_⟩
      intro a ha hb
      rw [List.mem_map] at ha hb
      obtain ⟨x, hx, rfl⟩ := ha
      obtain ⟨y, hy, hxy⟩ := hb
      rcases hnew y hy with h | h
      · cases h
      · exact h (hxy ▸ hmem x hx)
    rw [scrapeLoop_succ]
    by_cases hc : (items ++ (extractItems (docs (i + 1)) seen).1).length = items.length
    · rw [if_pos hc]
      exact hnd2
    · rw [if_neg hc]
      exact ih (i + 1) _ _ hmem2 hnd2

/-- Claim C1: no two records of a successful collection run share an
identifier, and re-running the locator plus extractor against an
unchanged tree with the seen set of a previous pass yields no new
records. -/
theorem claim_C1 :
    (∀ (docs : Nat → Doc) (l : List Item),
        scrapeWishlist docs = .ok l → (l.map Item.asin).Nodup)
  ∧ (∀ (d : Doc) (seen : List String),
        (extractItems d (extractItems d seen).2).1 = []) := by
  constructor
  · intro docs l h
    unfold scrapeWishlist scrapeRun at h
    cases hW : isWishlistPage (docs 0) with
    | false => rw [hW] at h; cases h
    | true =>
      rw [hW] at h
      simp only [Bool.not_true, Bool.false_eq_true, if_false] at h
      cases hP : isPrivateWishlist (docs 0) with
      | true => rw [hP] at h; simp only [if_true] at h; cases h
      | false =>
        rw [hP] at h
        simp only [Bool.false_eq_true, if_false] at h
        by_cases hlen : (scrapeFinal docs).1.length = 0
        · rw [if_pos hlen] at h; cases h
        · rw [if_neg hlen] at h
          cases h
          have hinit := extractLoop_inv (findWishlistItems (docs 0)) [] []
            (by intro x hx; cases hx) List.nodup_nil
          exact scrapeLoop_nodup docs maxScrollAttempts 0 _ _ hinit.2 hinit.1
  · intro d seen
    have hsat : ∀ el ∈ findWishlistItems d, ∀ it : Item,
        extractItemData el = some it →
        it.asin ∈ (extractLoop (findWishlistItems d) [] seen).2 := by
      intro el hel it hit
      exact extractLoop_sat (findWishlistItems d) [] seen el hel it hit
    unfold extractItems
    rw [extractLoop_noop (findWishlistItems d) []
      (extractLoop (findWishlistItems d) [] seen).2 hsat]

/-- A concrete wishlist item node carrying only a `data-asin`. -/
def elemA : Elem := .node ("LI") [("data-asin", "B000000001")] none none none "" []

/-- A concrete accessible wishlist document containing `elemA`. -/
def docW : Doc :=
  ⟨"https://www.amazon.com/hz/wishlist/ls/ABC", "", "", [elemA], [], [], [], true, []⟩

/-- A run whose tree never changes. -/
def docsW : Nat → Doc := fun _ => docW

/-- The record extracted from `elemA`. -/
def itemW : Item :=
  ⟨"Unknown Item", "B000000001", "N/A", "https://www.amazon.com/dp/B000000001", ""⟩

theorem claim_C1_witness : ([itemW].map Item.asin).Nodup :=
  claim_C1.1 docsW [itemW] rfl

/-- Eleven distinct product codes for the adversarial page. -/
def advAsins : List String :=
  ["B000000100", "B000000101", "B000000102", "B000000103", "B000000104",
   "B000000105", "B000000106", "B000000107", "B000000108", "B000000109",
   "B000000110"]

/-- A bare item node with the given product code. -/
def asinElem (a : String) : Elem := .node ("DIV") [(attrDataAsin, a)] none none none "" []

/-- An adversarial run: after `k` reveal cycles the tree exposes `k + 1`
items (capped at eleven), so every re-extraction yields a strictly
larger record set during all ten allowed cycles. -/
def advDocs (k : Nat) : Doc :=
  ⟨"https://www.amazon.com/hz/wishlist/ls/ADV", "", "", [], [], [],
   (advAsins.take (k + 1)).map asinElem, false, []⟩

/-- Claim C2: every run performs at most ten reveal cycles, and the
adversarial ever-growing page indeed exhausts exactly the ceiling of
ten while growing on every cycle. -/
theorem claim_C2 :
    (∀ docs : Nat → Doc, (scrapeRun docs).2 ≤ maxScrollAttempts)
  ∧ (scrapeRun advDocs).2 = maxScrollAttempts
  ∧ ((List.range 11).map fun k => (findWishlistItems (advDocs k)).length)
      = [1, 2, 3, 4, 5, 6, 7, 8, 9, 10, 11] := by
  refine ⟨?_, by decide, by decide⟩
  intro docs
  have hb := scrapeLoop_cycles docs maxScrollAttempts 0
    (extractItems (docs 0) []).1 (extractItems (docs 0) []).2
  unfold scrapeRun
  cases hW : isWishlistPage (docs 0) with
  | false => simp [hW]
  | true =>
    simp only [hW, Bool.not_true, Bool.false_eq_true, if_false]
    cases hP : isPrivateWishlist (docs 0) with
    | true => simp [hP]
    | false =>
      simp only [hP, Bool.false_eq_true, if_false]
      by_cases hlen : (scrapeFinal docs).1.length = 0
      · rw [if_pos hlen]
        exact hb
      · rw [if_neg hlen]
        exact hb

/-- Claim C3: one terminal outcome per run — a non-empty record list or
a single categorized failure; `NotAWishlistPage`, then
`PrivateOrInaccessible`, are decided before any reveal cycle; and
`NoItemsFound` occurs exactly when the loop ends with no records. -/
theorem claim_C3 :
    (∀ docs : Nat → Doc, (∃ l, scrapeWishlist docs = .ok l ∧ l ≠ [])
        ∨ ∃ e, scrapeWishlist docs = .error e)
  ∧ (∀ docs : Nat → Doc, isWishlistPage (docs 0) = false →
      scrapeRun docs = (.error .notAWishlistPage, 0))
  ∧ (∀ docs : Nat → Doc, isWishlistPage (docs 0) = true →
      isPrivateWishlist (docs 0) = true →
      scrapeRun docs = (.error .privateOrInaccessible, 0))
  ∧ (∀ docs : Nat → Doc, isWishlistPage (docs 0) = true →
      isPrivateWishlist (docs 0) = false →
      (scrapeWishlist docs = .error .noItemsFound ↔ (scrapeFinal docs).1 = [])) := by
  refine ⟨?_, ?_, ?_, ?_⟩
  · intro docs
    unfold scrapeWishlist scrapeRun
    cases hW : isWishlistPage (docs 0) with
    | false =>
      simp only [hW, Bool.not_false, if_true]
      exact Or.inr ⟨.notAWishlistPage, rfl⟩
    | true =>
      simp only [hW, Bool.not_true, Bool.false_eq_true, if_false]
      cases hP : isPrivateWishlist (docs 0) with
      | true =>
        simp only [if_true]
        exact Or.inr ⟨.privateOrInaccessible, rfl⟩
      | false =>
        simp only [Bool.false_eq_true, if_false]
        by_cases hlen : (scrapeFinal docs).1.length = 0
        · rw [if_pos hlen]
          exact Or.inr ⟨.noItemsFound, rfl⟩
        · rw [if_neg hlen]
          refine Or.inl ⟨(scrapeFinal docs).1, rfl, ?_⟩
          intro hnil
          rw [hnil] at hlen
          exact hlen rfl
  · intro docs hW
    unfold scrapeRun
    simp [hW]
  · intro docs hW hP
    unfold scrapeRun
    simp [hW, hP]
  · intro docs hW hP
    unfold scrapeWishlist scrapeRun
    simp only [hW, Bool.not_true, Bool.false_eq_true, if_false, hP]
    by_cases hlen : (scrapeFinal docs).1.length = 0
    · rw [if_pos hlen]
      exact ⟨fun _ => List.length_eq_zero.mp hlen, fun _ => rfl⟩
    · rw [if_neg hlen]
      refine ⟨fun h => ?_, fun h => ?_⟩
      · cases h
      · rw [h] at hlen
        exact absurd rfl hlen

/-- A non-wishlist document (no URL signal, no structure). -/
def emptyDoc : Doc := ⟨"https://example.com/page", "", "", [], [], [], [], false, []⟩

/-- A run against `emptyDoc`. -/
def docsEmpty : Nat → Doc := fun _ => emptyDoc

theorem claim_C3_witness : scrapeRun docsEmpty = (.error .notAWishlistPage, 0) :=
  claim_C3.2.1 docsEmpty rfl

/-- The four locator strategy results, in source order. -/
def strategyResults (d : Doc) : List (List Elem) := [d.q1, d.q2, d.q3, d.q4]

/-- Claim C5: the locator equals "first strategy with a match" over the
ordered strategy list, misses give the empty sequence, and the result is
never a merge — it is one of the four strategy results (or empty). -/
theorem isEmpty_eq_false_of_ne {α : Type _} {l : List α} (h : l ≠ []) :
    l.isEmpty = false := by
  cases l with
  | nil => exact absurd rfl h
  | cons a t => rfl

theorem claim_C5 (d : Doc) :
    findWishlistItems d = ((strategyResults d).find? (fun l => !l.isEmpty)).getD []
  ∧ (findWishlistItems d = [] ↔ ∀ l ∈ strategyResults d, l = [])
  ∧ (findWishlistItems d = [] ∨ findWishlistItems d ∈ strategyResults d) := by
  by_cases h1 : d.q1 = [] <;> by_cases h2 : d.q2 = [] <;>
    by_cases h3 : d.q3 = [] <;> by_cases h4 : d.q4 = [] <;>
      simp_all [findWishlistItems, strategyResults, List.find?,
        List.length_pos, List.isEmpty_iff, isEmpty_eq_false_of_ne]

/-- Claim C4: the private classifier returns false whenever the locator
finds an item (whatever the page text says), and returns true exactly
when the locator misses and either a private phrase occurs without
wishlist structure or a sign-in/error prompt carries list-access copy. -/
theorem claim_C4 (d : Doc) :
    (findWishlistItems d ≠ [] → isPrivateWishlist d = false)
  ∧ (isPrivateWishlist d = true ↔
      (findWishlistItems d = []
        ∧ ((∃ ind ∈ privateIndicators,
              (strIncludes d.bodyText ind || strIncludes d.bodyHTML ind) = true
                ∧ d.wishlistStructure = false)
           ∨ ∃ p ∈ d.signInPrompts, promptSignal p = true))) := by
  unfold isPrivateWishlist
  by_cases hf : (findWishlistItems d).length > 0
  · rw [if_pos hf]
    refine ⟨fun _ => rfl, ?_, ?_⟩
    · intro h
      exact absurd h (by simp)
    · rintro ⟨hnil, -⟩
      rw [hnil] at hf
      exact absurd hf (by simp)
  · rw [if_neg hf]
    have hnil : findWishlistItems d = [] :=
      List.length_eq_zero.mp (Nat.eq_zero_of_not_pos hf)
    refine ⟨fun hne => absurd hnil hne, ?_⟩
    by_cases hA : privateIndicators.any (fun ind =>
        (strIncludes d.bodyText ind || strIncludes d.bodyHTML ind)
          && !d.wishlistStructure) = true
    · rw [if_pos hA]
      refine ⟨fun _ => ⟨hnil, Or.inl ?_⟩, fun _ => rfl⟩
      rw [List.any_eq_true] at hA
      obtain ⟨ind, hind, hcond⟩ := hA
      rw [Bool.and_eq_true, Bool.not_eq_true'] at hcond
      exact ⟨ind, hind, hcond.1, hcond.2⟩
    · rw [if_neg hA]
      by_cases hB : d.signInPrompts.any promptSignal = true
      · rw [if_pos hB]
        refine ⟨fun _ => ⟨hnil, Or.inr ?_⟩, fun _ => rfl⟩
        rw [List.any_eq_true] at hB
        exact hB
      · rw [if_neg hB]
        refine ⟨fun h => absurd h (by simp), ?_⟩
        rintro ⟨-, hor⟩
        exfalso
        rcases hor with ⟨ind, hind, hinc, hstr⟩ | ⟨p, hp, hps⟩
        · apply hA
          rw [List.any_eq_true]
          exact ⟨ind, hind, by rw [Bool.and_eq_true, Bool.not_eq_true']
                               exact ⟨hinc, hstr⟩⟩
        · apply hB
          rw [List.any_eq_true]
          exact ⟨p, hp, hps⟩

/-- A document whose body text carries a private phrase while the
locator still finds an item node. -/
def docPhrase : Doc :=
  ⟨"https://www.amazon.com/hz/wishlist/ls/ABC", "This list is private", "",
   [elemA], [], [], [], true, []⟩

theorem claim_C4_witness : isPrivateWishlist docPhrase = false :=
  (claim_C4 docPhrase).1 (fun h => List.cons_ne_nil elemA [] h)

/-- Claim C6: every record produced by `extractItemData` carries an
identifier of exactly ten uppercase alphanumeric characters (so case
normalization fixes it, hence is idempotent on it), and when neither the
element nor its child probe resolves an identifier the extractor
returns `none`. -/
theorem claim_C6 (el : Elem) :
    (∀ it : Item, extractItemData el = some it →
        it.asin.data.length = 10
          ∧ it.asin.data.all isUpperAsinChar = true
          ∧ upperStr it.asin = it.asin)
  ∧ (extractASINFromElement el = "" → childAsin el = "" →
      extractItemData el = none) := by
  constructor
  · intro it h
    obtain ⟨hasin, hne⟩ := extractItemData_asin h
    have hval : (resolveAsin el).data.length = 10
        ∧ (resolveAsin el).data.all isUpperAsinChar = true := by
      unfold resolveAsin at hne ⊢
      by_cases hc : (extractASINFromElement el).isEmpty = true
      · rw [if_pos hc] at hne ⊢
        unfold childAsin at hne ⊢
        cases hq : el.query selAsinChild with
        | none =>
          simp only [hq] at hne
          exact absurd rfl hne
        | some c =>
          simp only [hq] at hne ⊢
          rcases asinFromElement_valid c with h0 | hv
          · rw [h0] at hne
            exact absurd rfl hne
          · exact hv
      · rw [if_neg hc] at hne ⊢
        rcases asinFromElement_valid el with h0 | hv
        · rw [h0] at hc
          exact absurd rfl hc
        · exact hv
    rw [hasin]
    refine ⟨hval.1, hval.2, ?_⟩
    apply str_eq_of_data
    unfold upperStr
    rw [data_mk]
    exact map_toUpper_fix hval.2
  · intro h0 hc
    have hres : resolveAsin el = "" := by
      unfold resolveAsin
      rw [h0, hc]
      exact ite_self ""
    unfold extractItemData
    rw [hres]
    rfl

/-- A concrete item node with a lowercase ten-character `data-asin`. -/
def elemC6 : Elem := .node ("LI") [("data-asin", "b01abc234x")] none none none "" []

/-- The record extracted from `elemC6` (identifier uppercased). -/
def itemC6 : Item :=
  ⟨"Unknown Item", "B01ABC234X", "N/A", "https://www.amazon.com/dp/B01ABC234X", ""⟩

theorem claim_C6_witness :
    itemC6.asin.data.length = 10
      ∧ itemC6.asin.data.all isUpperAsinChar = true
      ∧ upperStr itemC6.asin = itemC6.asin :=
  (claim_C6 elemC6).1 itemC6 rfl

/-! ### URL canonicalization facts -/

theorem takeWhile_cons_inv {α : Type _} {p : α → Bool} {l : List α} {b : α}
    {t : List α} (h : l.takeWhile p = b :: t) : l.head? = some b ∧ p b = true := by
  cases l with
  | nil => cases h
  | cons x xs =>
    cases hp : p x with
    | false => simp [List.takeWhile_cons, hp] at h
    | true =>
      simp only [List.takeWhile_cons, hp, if_true] at h
      cases h
      exact ⟨rfl, hp⟩

theorem schemeChar_path {c : Char} (h : schemeChar c = true) : pathChar c = true := by
  unfold pathChar
  rw [Bool.and_eq_true, decide_eq_true_eq, decide_eq_true_eq]
  constructor
  · rintro rfl
    exact absurd h (by decide)
  · rintro rfl
    exact absurd h (by decide)

theorem hostChar_path {c : Char} (h : notHostEnd c = true) : pathChar c = true := by
  unfold pathChar
  rw [Bool.and_eq_true, decide_eq_true_eq, decide_eq_true_eq]
  constructor
  · rintro rfl
    exact absurd h (by decide)
  · rintro rfl
    exact absurd h (by decide)

/-- What a successful `parseURL` guarantees about `origin ++ pathname`:
it contains no query/fragment delimiter, it does not start with `/`,
and re-parsing it reproduces the same parts. -/
theorem parseURL_spec {s : String} {u : URLParts} (h : parseURL s = some u) :
    (u.origin ++ u.pathname).data.all pathChar = true
    ∧ jsStartsWith (u.origin ++ u.pathname) strSlash = false
    ∧ parseURL (u.origin ++ u.pathname) = some u := by
  unfold parseURL at h
  split at h
  case isFalse => cases h
  case isTrue halpha =>
  split at h
  case h_2 => cases h
  case h_1 r2 heq =>
  split at h
  case isTrue => cases h
  case isFalse hhost =>
  cases h
  obtain ⟨a, scht, hsch⟩ : ∃ a t', urlScheme s = a :: t' := by
    cases hsc : urlScheme s with
    | nil =>
      rw [hsc] at halpha
      simp at halpha
    | cons a t' => exact ⟨a, t', rfl⟩
  have ha : a.isAlpha = true := by
    rw [hsch] at halpha
    simpa using halpha
  have hsch_all : ∀ c ∈ urlScheme s, schemeChar c = true :=
    fun c hc => List.mem_takeWhile_imp hc
  have hhost_all : ∀ c ∈ urlHost r2, notHostEnd c = true :=
    fun c hc => List.mem_takeWhile_imp hc
  obtain ⟨b, tb, hpd, hb⟩ : ∃ b tb,
      (if (urlPath r2).isEmpty then ['/'] else urlPath r2) = b :: tb
        ∧ notHostEnd b = false := by
    by_cases hpe : (urlPath r2).isEmpty = true
    · exact ⟨'/', [], by rw [if_pos hpe], by decide⟩
    · rw [if_neg hpe]
      cases hup : urlPath r2 with
      | nil =>
        rw [hup] at hpe
        exact absurd rfl hpe
      | cons b tb =>
        refine ⟨b, tb, rfl, ?_⟩
        unfold urlPath at hup
        obtain ⟨hhd, hpb⟩ := takeWhile_cons_inv hup
        have h2 := List.head?_dropWhile_not notHostEnd r2
        unfold urlAfterHost at hhd
        rw [hhd] at h2
        simpa using h2
  have hpd_all : ∀ c ∈ (if (urlPath r2).isEmpty then ['/'] else urlPath r2),
      pathChar c = true := by
    intro c hc
    by_cases hpe : (urlPath r2).isEmpty = true
    · rw [if_pos hpe] at hc
      rw [List.mem_singleton] at hc
      subst hc
      decide
    · rw [if_neg hpe] at hc
      unfold urlPath at hc
      exact List.mem_takeWhile_imp hc
  have hdata : ((⟨urlScheme s ++ ':' :: '/' :: '/' :: urlHost r2⟩ : String)
        ++ (⟨if (urlPath r2).isEmpty then ['/'] else urlPath r2⟩ : String)).data
      = urlScheme s ++ ':' :: '/' :: '/'
          :: (urlHost r2 ++ (if (urlPath r2).isEmpty then ['/'] else urlPath r2)) := by
    rw [String.data_append, data_mk, data_mk]
    simp [List.append_assoc]
  refine ⟨?_, ?_, ?_⟩
  · show ((⟨urlScheme s ++ ':' :: '/' :: '/' :: urlHost r2⟩ : String)
        ++ (⟨if (urlPath r2).isEmpty then ['/'] else urlPath r2⟩ : String)).data.all
          pathChar = true
    rw [hdata, List.all_eq_true]
    intro c hc
    simp only [List.mem_append, List.mem_cons] at hc
    rcases hc with hc | rfl | rfl | rfl | hc | hc
    · exact schemeChar_path (hsch_all c hc)
    · decide
    · decide
    · decide
    · exact hostChar_path (hhost_all c hc)
    · exact hpd_all c hc
  · have hne : ('/' == a) = false := by
      rw [beq_eq_false_iff_ne]
      rintro rfl
      exact absurd ha (by decide)
    show (strSlash.data.isPrefixOf ((⟨urlScheme s ++ ':' :: '/' :: '/' :: urlHost r2⟩ : String)
        ++ (⟨if (urlPath r2).isEmpty then ['/'] else urlPath r2⟩ : String)).data) = false
    rw [hdata, hsch]
    have hslash : strSlash.data = ['/'] := rfl
    rw [hslash]
    show (List.isPrefixOf ['/'] (a :: (scht ++ ':' :: '/' :: '/'
      :: (urlHost r2 ++ (if (urlPath r2).isEmpty then ['/'] else urlPath r2))))) = false
    simp [List.isPrefixOf, hne]
  · have hS : urlScheme ((⟨urlScheme s ++ ':' :: '/' :: '/' :: urlHost r2⟩ : String)
        ++ (⟨if (urlPath r2).isEmpty then ['/'] else urlPath r2⟩ : String))
        = urlScheme s := by
      show ((⟨urlScheme s ++ ':' :: '/' :: '/' :: urlHost r2⟩ : String)
        ++ (⟨if (urlPath r2).isEmpty then ['/'] else urlPath r2⟩ : String)).data.takeWhile
          schemeChar = urlScheme s
      rw [hdata, List.takeWhile_append_of_pos hsch_all,
        List.takeWhile_cons_of_neg (by decide), List.append_nil]
    have hA : urlAfterScheme ((⟨urlScheme s ++ ':' :: '/' :: '/' :: urlHost r2⟩ : String)
        ++ (⟨if (urlPath r2).isEmpty then ['/'] else urlPath r2⟩ : String))
        = ':' :: '/' :: '/'
            :: (urlHost r2 ++ (if (urlPath r2).isEmpty then ['/'] else urlPath r2)) := by
      show ((⟨urlScheme s ++ ':' :: '/' :: '/' :: urlHost r2⟩ : String)
        ++ (⟨if (urlPath r2).isEmpty then ['/'] else urlPath r2⟩ : String)).data.dropWhile
          schemeChar = ':' :: '/' :: '/'
            :: (urlHost r2 ++ (if (urlPath r2).isEmpty then ['/'] else urlPath r2))
      rw [hdata, List.dropWhile_append_of_pos hsch_all,
        List.dropWhile_cons_of_neg (by decide)]
    have hH : urlHost (urlHost r2 ++ (if (urlPath r2).isEmpty then ['/'] else urlPath r2))
        = urlHost r2 := by
      show ((urlHost r2) ++ (if (urlPath r2).isEmpty then ['/'] else urlPath r2)).takeWhile
          notHostEnd = urlHost r2
      rw [hpd, List.takeWhile_append_of_pos hhost_all,
        List.takeWhile_cons_of_neg (by simp [hb]), List.append_nil]
    have hAH : urlAfterHost (urlHost r2
          ++ (if (urlPath r2).isEmpty then ['/'] else urlPath r2))
        = (if (urlPath r2).isEmpty then ['/'] else urlPath r2) := by
      show ((urlHost r2) ++ (if (urlPath r2).isEmpty then ['/'] else urlPath r2)).dropWhile
          notHostEnd = (if (urlPath r2).isEmpty then ['/'] else urlPath r2)
      rw [hpd, List.dropWhile_append_of_pos hhost_all,
        List.dropWhile_cons_of_neg (by simp [hb])]
    have hP : urlPath (urlHost r2 ++ (if (urlPath r2).isEmpty then ['/'] else urlPath r2))
        = (if (urlPath r2).isEmpty then ['/'] else urlPath r2) := by
      show (urlAfterHost (urlHost r2
          ++ (if (urlPath r2).isEmpty then ['/'] else urlPath r2))).takeWhile pathChar
        = (if (urlPath r2).isEmpty then ['/'] else urlPath r2)
      rw [hAH]
      exact List.takeWhile_eq_self_iff.mpr hpd_all
    have hpe2 : (if (urlPath r2).isEmpty then ['/'] else urlPath r2).isEmpty = false := by
      rw [hpd]
      rfl
    unfold parseURL
    rw [hS, if_pos halpha]
    simp only [hA]
    rw [hH, hP, if_neg hhost, hpe2]
    rfl

/-- Parsing the canonical origin prefixed to a root-relative path always
succeeds. -/
theorem parseURL_amazon (t : List Char) :
    parseURL ⟨"https://www.amazon.com".data ++ '/' :: t⟩ =
      some ⟨"https://www.amazon.com", ⟨'/' :: t.takeWhile pathChar⟩⟩ := by
  have hshape : ("https://www.amazon.com".data ++ '/' :: t)
      = "https".data ++ ':' :: '/' :: '/' :: ("www.amazon.com".data ++ '/' :: t) := rfl
  have hS : urlScheme ⟨"https://www.amazon.com".data ++ '/' :: t⟩ = "https".data := by
    show ("https://www.amazon.com".data ++ '/' :: t).takeWhile schemeChar = "https".data
    rw [hshape, List.takeWhile_append_of_pos (by decide),
      List.takeWhile_cons_of_neg (by decide), List.append_nil]
  have hA : urlAfterScheme ⟨"https://www.amazon.com".data ++ '/' :: t⟩
      = ':' :: '/' :: '/' :: ("www.amazon.com".data ++ '/' :: t) := by
    show ("https://www.amazon.com".data ++ '/' :: t).dropWhile schemeChar
      = ':' :: '/' :: '/' :: ("www.amazon.com".data ++ '/' :: t)
    rw [hshape, List.dropWhile_append_of_pos (by decide),
      List.dropWhile_cons_of_neg (by decide)]
  have hH : urlHost ("www.amazon.com".data ++ '/' :: t) = "www.amazon.com".data := by
    show ("www.amazon.com".data ++ '/' :: t).takeWhile notHostEnd = "www.amazon.com".data
    rw [List.takeWhile_append_of_pos (by decide),
      List.takeWhile_cons_of_neg (by decide), List.append_nil]
  have hAH : urlAfterHost ("www.amazon.com".data ++ '/' :: t) = '/' :: t := by
    show ("www.amazon.com".data ++ '/' :: t).dropWhile notHostEnd = '/' :: t
    rw [List.dropWhile_append_of_pos (by decide), List.dropWhile_cons_of_neg (by decide)]
  have hP : urlPath ("www.amazon.com".data ++ '/' :: t) = '/' :: t.takeWhile pathChar := by
    show (urlAfterHost ("www.amazon.com".data ++ '/' :: t)).takeWhile pathChar
      = '/' :: t.takeWhile pathChar
    rw [hAH, List.takeWhile_cons_of_pos (by decide)]
  have hpe : ('/' :: t.takeWhile pathChar).isEmpty = false := rfl
  unfold parseURL
  rw [hS, if_pos (by decide)]
  simp only [hA]
  rw [hH, hP, if_neg (by decide), hpe]
  rfl

/-- A successfully parsed href cleans to `origin ++ pathname`. -/
theorem cleanHref_parse {h : String} {u : URLParts}
    (hp : parseURL (rootResolve h) = some u) :
    cleanHref h = u.origin ++ u.pathname := by
  unfold cleanHref
  simp only [hp]

/-- An unparseable href is returned unchanged (after root-relative
resolution). -/
theorem cleanHref_fail {h : String} (hp : parseURL (rootResolve h) = none) :
    cleanHref h = rootResolve h := by
  unfold cleanHref
  simp only [hp]

theorem startsSlash_data {h : String} (hs : jsStartsWith h strSlash = true) :
    ∃ t, h.data = '/' :: t := by
  unfold jsStartsWith at hs
  cases hdat : h.data with
  | nil =>
    rw [hdat] at hs
    exact absurd hs (by decide)
  | cons c t0 =>
    rw [hdat, show strSlash.data = ['/'] from rfl] at hs
    simp [List.isPrefixOf] at hs
    exact ⟨t0, by rw [hs]⟩

/-- `cleanHref` is idempotent on every input. -/
theorem cleanHref_idem (h : String) : cleanHref (cleanHref h) = cleanHref h := by
  cases hp : parseURL (rootResolve h) with
  | some u =>
    have h1 : cleanHref h = u.origin ++ u.pathname := cleanHref_parse hp
    obtain ⟨hall, hstart, hre⟩ := parseURL_spec hp
    have hroot : rootResolve (u.origin ++ u.pathname) = u.origin ++ u.pathname := by
      unfold rootResolve
      simp only [hstart, Bool.false_eq_true, if_false]
    rw [h1]
    unfold cleanHref
    simp only [hroot, hre]
  | none =>
    have h1 : cleanHref h = rootResolve h := cleanHref_fail hp
    rw [h1]
    by_cases hs : jsStartsWith h strSlash = true
    · exfalso
      obtain ⟨t, ht⟩ := startsSlash_data hs
      have hgood : parseURL (rootResolve h)
          = some ⟨"https://www.amazon.com", ⟨'/' :: t.takeWhile pathChar⟩⟩ := by
        unfold rootResolve
        rw [if_pos hs]
        have hmk : amazonOrigin ++ h = ⟨"https://www.amazon.com".data ++ '/' :: t⟩ := by
          apply str_eq_of_data
          rw [String.data_append, data_mk, ht]
          rfl
        rw [hmk, parseURL_amazon]
      rw [hp] at hgood
      cases hgood
    · have hroot : rootResolve h = h := by
        unfold rootResolve
        rw [if_neg hs]
      rw [hroot, h1, hroot]

/-- Claim C7 counterexample: an anchor whose `href` property is a URL
the browser cannot parse (a space is a forbidden host code point, so
`new URL` throws and the code's `catch` returns the href verbatim).
The produced url field keeps its tracking query, contradicting the
claim that canonicalization strips query parameters from every link. -/
def badLink : Elem :=
  .node ("A") [] none (some "https://exa mple.com/dp/B012345678?tag=track") none "" []

/-- Claim C7, counterexample: the record url of `badLink` retains its
query string. -/
theorem claim_C7_cx :
    extractItemUrl badLink = "https://exa mple.com/dp/B012345678?tag=track"
      ∧ ('?' ∈ (extractItemUrl badLink).data)
      ∧ strIncludes (extractItemUrl badLink) ("tag=track") = true := by
  refine ⟨by decide, by decide, by decide⟩

/-- Claim C7 (amended): for every link whose (root-relative-resolved)
href parses as a URL, `extractItemUrl`'s canonicalization keeps exactly
`origin ++ pathname` — no query/fragment delimiter survives; an href
that fails to parse is returned unchanged; the canonicalization is
idempotent on all inputs; and `extractItemUrl` is this canonicalization
applied to the resolved product link's href. -/
theorem claim_C7 :
    (∀ (h : String) (u : URLParts), parseURL (rootResolve h) = some u →
        cleanHref h = u.origin ++ u.pathname
          ∧ (cleanHref h).data.all pathChar = true)
  ∧ (∀ h : String, parseURL (rootResolve h) = none → cleanHref h = rootResolve h)
  ∧ (∀ h : String, cleanHref (cleanHref h) = cleanHref h)
  ∧ (∀ el link : Elem, linkOf el = some link → optT (linkHref link) = true →
      extractItemUrl el = cleanHref (jsOrE (linkHref link))) := by
  refine ⟨?_, ?_, cleanHref_idem, ?_⟩
  · intro h u hp
    have h1 := cleanHref_parse hp
    refine ⟨h1, ?_⟩
    rw [h1]
    exact (parseURL_spec hp).1
  · intro h hp
    exact cleanHref_fail hp
  · intro el link hl ho
    unfold extractItemUrl
    simp only [hl]
    rw [if_pos ho]

/-- A concrete parseable href with query and fragment. -/
def wHref : String := "https://www.amazon.com/dp/B012345678/?tag=x#f"

/-- Its expected parse result. -/
def wParts : URLParts := ⟨"https://www.amazon.com", "/dp/B012345678/"⟩

theorem claim_C7_witness :
    cleanHref wHref = wParts.origin ++ wParts.pathname
      ∧ (cleanHref wHref).data.all pathChar = true :=
  claim_C7.1 wHref wParts (by decide)

def strDollar : String := "$"

/-- A `data-price` attribute value reaching `formatPrice` unchanged. -/
def cxPrice : String := "1$0"

/-- A price element whose `.a-price .a-offscreen` child carries the
`data-price` attribute `1$0`. -/
def priceAttrElem : Elem := .node ("SPAN") [("data-price", "1$0")] none none none "" []

/-- An item node on which the extractor's first price selector hits
`priceAttrElem`. -/
def priceElemCx : Elem :=
  .node ("LI") [] none none none "" [(".a-price .a-offscreen", priceAttrElem)]

theorem stripCommas_no_comma {p : String} (h : ',' ∈ (stripCommas p).data) : False := by
  unfold stripCommas at h
  rw [data_mk] at h
  have := List.of_mem_filter h
  simp at this

theorem contains_dollar_mem {l : List Char} :
    l.contains '$' = true ↔ '$' ∈ l :=
  List.elem_iff

/-- Claim C8, counterexample: `formatPrice` (reachable through
`extractItemPrice` via a `data-price` attribute) can return a string
whose currency symbol is not leading. -/
theorem claim_C8_cx :
    extractItemPrice priceElemCx = cxPrice
      ∧ formatPrice cxPrice = cxPrice
      ∧ ('$' ∈ (formatPrice cxPrice).data)
      ∧ jsStartsWith (formatPrice cxPrice) strDollar = false := by
  exact ⟨by decide, by decide, by decide, by decide⟩

/-- Claim C8 (amended): `formatPrice` always removes every comma; when
the comma-stripped input contains no `$` (and the input is non-empty)
the output is that string with exactly one leading `$`; but when the
comma-stripped input already contains a `$` it is returned unchanged,
so the symbol need not be leading nor unique. -/
theorem claim_C8 (p : String) :
    (formatPrice p).data.count ',' = 0
  ∧ (p ≠ "" → ('$' ∈ (stripCommas p).data → False) →
      formatPrice p = strDollar ++ stripCommas p
        ∧ jsStartsWith (formatPrice p) strDollar = true
        ∧ (formatPrice p).data.count '$' = 1)
  ∧ ('$' ∈ (stripCommas p).data → formatPrice p = stripCommas p) := by
  unfold formatPrice
  by_cases hemp : p.isEmpty = true
  · rw [if_pos hemp]
    have hpe : p = "" := (String.isEmpty_iff p).mp hemp
    refine ⟨by decide, ?_, ?_⟩
    · intro hne
      exact absurd hpe hne
    · intro hmem
      subst hpe
      exact absurd hmem (by decide)
  · rw [if_neg hemp]
    by_cases hcont : (stripCommas p).data.contains '$' = true
    · rw [if_pos hcont]
      refine ⟨?_, ?_, fun _ => rfl⟩
      · exact List.count_eq_zero.mpr fun h => stripCommas_no_comma h
      · intro _ hnot
        exact absurd (contains_dollar_mem.mp hcont) fun h => hnot h
    · rw [if_neg hcont]
      have hnotmem : '$' ∉ (stripCommas p).data := fun h =>
        hcont (contains_dollar_mem.mpr h)
      refine ⟨?_, ?_, ?_⟩
      · show ((strDollar ++ stripCommas p).data.count ',') = 0
        rw [String.data_append]
        rw [show strDollar.data = ['$'] from rfl]
        rw [List.count_eq_zero]
        intro h
        rcases List.mem_cons.mp h with h | h
        · cases h
        · exact stripCommas_no_comma h
      · refine fun _ _ => ⟨rfl, ?_, ?_⟩
        · show (strDollar.data.isPrefixOf (strDollar ++ stripCommas p).data) = true
          rw [String.data_append, show strDollar.data = ['$'] from rfl]
          simp [List.isPrefixOf]
        · show ((strDollar ++ stripCommas p).data.count '$') = 1
          rw [String.data_append, show strDollar.data = ['$'] from rfl]
          rw [List.singleton_append, List.count_cons]
          rw [List.count_eq_zero.mpr hnotmem]
          rfl
      · intro hmem
        exact absurd hmem hnotmem

/-- A plain numeric price with a thousands separator. -/
def wPrice : String := "1,234.56"

theorem claim_C8_witness :
    formatPrice wPrice = strDollar ++ stripCommas wPrice
      ∧ jsStartsWith (formatPrice wPrice) strDollar = true
      ∧ (formatPrice wPrice).data.count '$' = 1 :=
  (claim_C8 wPrice).2.1 (by decide) (fun h => by exact absurd h (by decide))

theorem contains_mem {l : List Char} {c : Char} : l.contains c = true ↔ c ∈ l :=
  List.elem_iff

theorem dupQuotes_ne_nil {l : List Char} (h : l ≠ []) : dupQuotes l ≠ [] := by
  cases l with
  | nil => exact absurd rfl h
  | cons c r =>
    unfold dupQuotes
    by_cases hc : c = '"'
    · rw [if_pos hc]
      exact List.cons_ne_nil _ _
    · rw [if_neg hc]
      exact List.cons_ne_nil _ _

theorem collapse_dup : ∀ l : List Char, collapseQuotes (dupQuotes l) = l := by
  intro l
  induction l with
  | nil => rfl
  | cons c r ih =>
    unfold dupQuotes
    by_cases hc : c = '"'
    · rw [if_pos hc, hc]
      show collapseQuotes ('"' :: '"' :: dupQuotes r) = '"' :: r
      unfold collapseQuotes
      rw [if_pos ⟨rfl, rfl⟩, ih]
    · rw [if_neg hc]
      cases hd : dupQuotes r with
      | nil =>
        have hr : r = [] := by
          by_contra hne
          exact dupQuotes_ne_nil hne hd
        subst hr
        rfl
      | cons d rest =>
        show collapseQuotes (c :: d :: rest) = c :: r
        unfold collapseQuotes
        rw [if_neg (fun hand => hc hand.1)]
        rw [← hd, ih]

/-- Claim C9: the export writes the exact header row
`Item Name,ASIN,Price,URL,Image URL` followed by one row per record,
and `escapeCSVField` round-trips through standard CSV field decoding on
any field containing a comma, a quote, and a newline. -/
theorem claim_C9 :
    (∀ items : List Item, items ≠ [] →
        exportToCSVContent items
          = some (String.intercalate ("\n") (csvHeaderString :: items.map itemRow))
          ∧ (items.map itemRow).length = items.length)
  ∧ csvHeaderString = "Item Name,ASIN,Price,URL,Image URL"
  ∧ (∀ s : String, ',' ∈ s.data → '"' ∈ s.data → '\n' ∈ s.data →
      csvFieldDecode (escapeCSVField s) = s) := by
  refine ⟨?_, by decide, ?_⟩
  · intro items hne
    unfold exportToCSVContent
    rw [if_neg (fun h => hne (List.length_eq_zero.mp h))]
    exact ⟨rfl, List.length_map _ _⟩
  · intro s h1 h2 h3
    have hcond : (s.data.contains ',' || s.data.contains '"'
        || s.data.contains '\n') = true := by
      rw [Bool.or_eq_true, Bool.or_eq_true]
      exact Or.inl (Or.inl (contains_mem.mpr h1))
    have hesc : escapeCSVField s = ⟨'"' :: dupQuotes s.data ++ ['"']⟩ := by
      unfold escapeCSVField
      rw [if_pos hcond]
    rw [hesc]
    show (if ((dupQuotes s.data ++ ['"']) ≠ []
          ∧ (dupQuotes s.data ++ ['"']).getLast? = some '"')
        then (⟨collapseQuotes (dupQuotes s.data ++ ['"']).dropLast⟩ : String)
        else ⟨'"' :: dupQuotes s.data ++ ['"']⟩) = s
    rw [if_pos ⟨by simp, List.getLast?_concat _⟩]
    rw [List.dropLast_concat, collapse_dup]

/-- A field containing a comma, a quote, and a newline. -/
def wField : String := "a,\"b\nc"

theorem claim_C9_witness :
    (exportToCSVContent [itemW]
        = some (String.intercalate ("\n") (csvHeaderString :: [itemW].map itemRow))
      ∧ ([itemW].map itemRow).length = [itemW].length)
      ∧ csvFieldDecode (escapeCSVField wField) = wField :=
  ⟨claim_C9.1 [itemW] (by decide),
   claim_C9.2.2 wField (by decide) (by decide) (by decide)⟩

theorem bareTryAt_valid {prev : Option Char} {cs t : List Char}
    (h : bareTryAt prev cs = some t) :
    t.length = 10 ∧ t.all isUpperAsinChar = true := by
  unfold bareTryAt at h
  split at h
  · split at h
    · rename_i tok r htake
      split at h
      · cases h
        exact take10_valid htake
      · cases h
    · cases h
  · cases h

theorem findBare_valid : ∀ (cs : List Char) (prev : Option Char) {t : List Char},
    findBare prev cs = some t → t.length = 10 ∧ t.all isUpperAsinChar = true := by
  intro cs
  induction cs with
  | nil => intro prev t h; cases h
  | cons c rest ih =>
    intro prev t h
    unfold findBare at h
    split at h
    · rename_i htry
      cases h
      exact bareTryAt_valid htry
    · exact ih _ h

/-- An element with a short lowercase `data-asin` and no link: the two
ASIN extractors disagree on it. -/
def disagreeElem : Elem := .node ("DIV") [("data-asin", "xyz")] none none none "" []

/-- Claim C10: the utility `extractASIN` returns attribute-resolved
identifiers verbatim (unvalidated, not uppercased); on URL strings it
also accepts the leftmost bare ten-character token when it starts with
`A`, `B`, or a digit; consequently it disagrees with the content
script's `extractASINFromElement`, which only ever returns a validated
uppercase code or the empty string. -/
theorem claim_C10 :
    (∀ (el : Elem) (a : String),
        jsOrE (linkHref el) = "" →
        elemAttrAsin el = some a →
        a ≠ "" → extractASIN (.inl el) = a)
  ∧ (∀ (s : String) (t : List Char),
        findDpAsin s.data = none → findAsinParam s.data = none →
        findBare none s.data = some t → bareLeadOK t = true →
        extractASIN (.inr s) = ⟨t⟩)
  ∧ (extractASIN (.inl disagreeElem) = "xyz"
      ∧ extractASINFromElement disagreeElem = "")
  ∧ (∀ el : Elem, extractASINFromElement el = ""
      ∨ ((extractASINFromElement el).data.length = 10
          ∧ (extractASINFromElement el).data.all isUpperAsinChar = true)) := by
  refine ⟨?_, ?_, ⟨by decide, by decide⟩, asinFromElement_valid⟩
  · intro el a h0 hattr hne
    show extractASINElem el = a
    unfold extractASINElem
    have he : (jsOrE (linkHref el)).isEmpty = true := by
      rw [h0]
      rfl
    have ho : optT (elemAttrAsin el) = true := by
      rw [hattr]
      show (!a.isEmpty) = true
      cases hae : a.isEmpty with
      | true => exact absurd ((String.isEmpty_iff a).mp hae) hne
      | false => rfl
    rw [if_pos ⟨he, ho⟩, hattr]
    rfl
  · intro s t h1 h2 h3 hlead
    have hv := findBare_valid s.data none h3
    show extractASINStr s = ⟨t⟩
    have hne2 : ¬ s.isEmpty = true := by
      intro hh
      have hs0 := (String.isEmpty_iff s).mp hh
      subst hs0
      cases h3
    unfold extractASINStr
    rw [if_neg hne2]
    simp only [h1, h2, h3]
    rw [if_pos (by rw [Bool.and_eq_true]
                   exact ⟨by simp [hv.1], hlead⟩)]
    apply str_eq_of_data
    show ((⟨t⟩ : String).data.map Char.toUpper) = t
    rw [data_mk]
    exact map_toUpper_fix hv.2

/-- A URL string whose only signal is a bare token. -/
def wBareUrl : String := "see item B123456789 here"

theorem claim_C10_witness : extractASIN (.inr wBareUrl) = ⟨"B123456789".data⟩ :=
  claim_C10.2.1 wBareUrl ("B123456789".data) (by decide) (by decide) (by decide)
    (by decide)

theorem claim_C2_witness : (scrapeRun docsW).2 ≤ maxScrollAttempts :=
  claim_C2.1 docsW

theorem claim_C5_witness :
    findWishlistItems docW
      = ((strategyResults docW).find? (fun l => !l.isEmpty)).getD [] :=
  (claim_C5 docW).1
